import Mathlib

/-!
Verification development for the Discord emoji optimizer
(`emoji_optimizer.py`). The Python pipeline is shallowly embedded:
images are records of mode/dimensions/per-pixel alpha, the filesystem
is a map from path strings to byte lists, Pillow's encoders are
abstract oracles gathered in a `Codec` record (their byte output is
arbitrary, only threaded through), and Pillow's `Image.thumbnail`
geometry is reproduced with exact rational arithmetic in place of
float64. Console output is modelled as a list of structured lines.
-/

set_option autoImplicit false

namespace EmojiOptimizer

/-- 256KB size limit (`MAX_SIZE_BYTES = 256 * 1024`). -/
def MAX_SIZE_BYTES : Nat := 256 * 1024

/-- Maximum emoji dimensions (`MAX_DIMENSIONS = (128, 128)`). -/
def MAX_DIMENSIONS : Nat × Nat := (128, 128)

/-- Supported source extensions (`SUPPORTED_EXTENSIONS`). -/
def SUPPORTED_EXTENSIONS : List String := [".png", ".jpg", ".jpeg", ".gif", ".webp"]

/-- Pillow color modes that can reach the optimizer. -/
inductive Mode where
  | RGB
  | RGBA
  | L
  | LA
  | P
  | CMYK
deriving DecidableEq

/-- A decoded Pillow image: color mode, pixel dimensions, whether
the metadata dictionary contains a transparency entry (the Python
test is membership of the string transparency in img.info), and the
effective per-pixel alpha values (255 = fully opaque). Pixel color
channels are irrelevant to every claim and are not modelled. -/
structure PILImage where
  mode : Mode
  width : Nat
  height : Nat
  transparencyInfo : Bool
  alphas : List Nat
deriving DecidableEq

/-- The mode test on line 52 of the source:
img.mode in (RGBA, LA) or (img.mode == P and transparency in img.info). -/
def needsAlpha (img : PILImage) : Bool :=
  img.mode = Mode.RGBA || img.mode = Mode.LA ||
    (img.mode = Mode.P && img.transparencyInfo)

/-- img.convert(RGBA): promote to an alpha-carrying mode, keeping
the effective per-pixel alpha. -/
def convertRGBA (img : PILImage) : PILImage :=
  { img with mode := Mode.RGBA }

/-- img.convert(RGB): flatten to opaque RGB; every pixel becomes
fully opaque and any transparency metadata is dropped. -/
def convertRGB (img : PILImage) : PILImage :=
  { img with mode := Mode.RGB,
             transparencyInfo := false,
             alphas := img.alphas.map fun _ => 255 }

/-- Lines 52-59 of the source: images whose mode carries transparency
are promoted to RGBA, all others are flattened to RGB. -/
def normalizeMode (img : PILImage) : PILImage :=
  if needsAlpha img then convertRGBA img else convertRGB img

/-- A pixel with alpha below 255 exists somewhere in the image. -/
def hasTransparentPixel (img : PILImage) : Bool :=
  img.alphas.any fun a => a < 255

/-- Pillow invariant on decodable images: a pixel can be non-opaque
only when the mode itself carries transparency (RGBA, LA, or palette
mode with a transparency entry). Opaque-mode images (RGB, L, CMYK,
plain P) store no alpha. -/
def WFImage (img : PILImage) : Prop :=
  hasTransparentPixel img = true → needsAlpha img = true

/-- Pillow round_aspect helper inside Image.thumbnail: pick whichever
of floor and ceiling minimizes the key (floor on ties, matching
Python min), then clamp below by 1. -/
def round_aspect (v : ℚ) (key : ℤ → ℚ) : ℤ :=
  max (if key ⌊v⌋ ≤ key ⌈v⌉ then ⌊v⌋ else ⌈v⌉) 1

/-- Geometry of Pillow Image.thumbnail (modelled from the external
Pillow library that the source calls on lines 62 and 107, with exact
rationals for the float aspect computations): no resize when already
within bounds; otherwise scale the binding axis to the bound and
round the other axis from the preserved aspect ratio. -/
def thumbnailDims (w h mw mh : Nat) : Nat × Nat :=
  if w ≤ mw ∧ h ≤ mh then (w, h)
  else
    let aspect : ℚ := (w : ℚ) / (h : ℚ)
    if aspect ≤ (mw : ℚ) / (mh : ℚ) then
      ((round_aspect ((mh : ℚ) * aspect)
          fun n => |aspect - (n : ℚ) / (mh : ℚ)|).toNat, mh)
    else
      (mw, (round_aspect ((mw : ℚ) / aspect)
          fun n => if n = 0 then 0 else |aspect - (mw : ℚ) / (n : ℚ)|).toNat)

/-- img.thumbnail(MAX_DIMENSIONS, LANCZOS): in-place downscale. Mode
is preserved; the resampled pixel buffer is carried through
unchanged because no downstream decision reads it. -/
def thumbnailImg (img : PILImage) : PILImage :=
  { img with
    width := (thumbnailDims img.width img.height MAX_DIMENSIONS.1 MAX_DIMENSIONS.2).1,
    height := (thumbnailDims img.width img.height MAX_DIMENSIONS.1 MAX_DIMENSIONS.2).2 }

/-- The output directory as a map from file names to byte contents. -/
def FS : Type := String → Option (List Nat)

/-- Write (create or overwrite) a file. -/
def FS.write (fs : FS) (p : String) (bytes : List Nat) : FS :=
  fun q => if q = p then some bytes else fs q

/-- output_path.stat().st_size of an existing file (0 when absent;
every read in the pipeline follows a write to the same path). -/
def FS.sizeAt (fs : FS) (p : String) : Nat :=
  ((fs p).getD []).length

/-- Abstract encoders standing for Pillow's save and quantize calls.
Byte outputs are arbitrary functions of the image (and quality /
frame data); the pipeline only threads them through and measures
their length. -/
structure Codec where
  encodePNG : PILImage → List Nat
  encodeJPEG : PILImage → Nat → List Nat
  quantize : PILImage → PILImage
  encodeGIF : List PILImage → List Nat → Nat → List Nat

/-- The while loop of save_with_size_limit (lines 151-157): save at
the current quality, stop if the file fits, otherwise retry 5 lower
while quality > 10. Returns the final filesystem together with the
list of qualities at which a save was performed, in order. -/
def swslFsLoop (c : Codec) (img : PILImage) (path : String) (fs : FS)
    (quality : Nat) : FS × List Nat :=
  if 10 < quality then
    let fs1 := fs.write path (c.encodeJPEG img quality)
    if fs1.sizeAt path ≤ MAX_SIZE_BYTES then (fs1, [quality])
    else
      let r := swslFsLoop c img path fs1 (quality - 5)
      (r.1, quality :: r.2)
  else (fs, [])
termination_by quality
decreasing_by omega

/-- save_with_size_limit: start the quality ladder at 95. -/
def save_with_size_limit (c : Codec) (img : PILImage) (path : String)
    (fs : FS) : FS :=
  (swslFsLoop c img path fs 95).1

/-- The static path of optimize_image (lines 51-87): normalize mode,
downscale, save as PNG; if over 256KB quantize RGBA images and
re-save; if still over, fall back to the JPEG quality ladder under a
.jpg name. Returns the final filesystem and the returned output
path. -/
def optimize_image (c : Codec) (stem : String) (img : PILImage)
    (fs : FS) : FS × Option String :=
  let img2 := thumbnailImg (normalizeMode img)
  let output_path := stem ++ "_emoji.png"
  let fs1 := fs.write output_path (c.encodePNG img2)
  if MAX_SIZE_BYTES < fs1.sizeAt output_path then
    let fs2 :=
      if img2.mode = Mode.RGBA then
        fs1.write output_path (c.encodePNG (c.quantize img2))
      else fs1
    if MAX_SIZE_BYTES < fs2.sizeAt output_path then
      let jpg_path := stem ++ "_emoji.jpg"
      let fs3 := save_with_size_limit c (convertRGB img2) jpg_path fs2
      (fs3, some jpg_path)
    else (fs2, some output_path)
  else (fs1, some output_path)

/-- frames[::2]: every second element starting at index 0. -/
def everyOther {α : Type} : List α → List α
  | [] => []
  | [a] => [a]
  | a :: _ :: rest => a :: everyOther rest

/-- One console line, structurally (print formatting abstracted). -/
inductive ConsoleLine where
  | processing (name : String)
  | saved (name : String) (size : Nat) (frameCount : Nat)
  | errorLine (name : String) (cause : String)
deriving DecidableEq

/-- optimize_animated_gif (lines 94-146) on an already decoded frame
list: each decoded element pairs a frame with its duration
(appended in lockstep by the source loop). Frames are downscaled,
assembled once; if the file is over 256KB it is re-assembled exactly
once from every second frame with doubled durations. Zero decoded
frames fall through the if-frames guard and return None with no
write and no console line. -/
def optimize_animated_gif (c : Codec) (stem : String)
    (decoded : List (PILImage × Nat)) (loop : Nat) (fs : FS) :
    FS × Option String × List ConsoleLine :=
  let output_path := stem ++ "_emoji.gif"
  let frames := decoded.map fun p => thumbnailImg p.1
  let durations := decoded.map Prod.snd
  if frames = [] then (fs, none, [])
  else
    let fs1 := fs.write output_path (c.encodeGIF frames durations loop)
    if MAX_SIZE_BYTES < fs1.sizeAt output_path then
      let reduced_frames := everyOther frames
      let reduced_durations := (everyOther durations).map fun d => d * 2
      let fs2 := fs1.write output_path
        (c.encodeGIF reduced_frames reduced_durations loop)
      (fs2, some output_path,
        [ConsoleLine.saved output_path (fs2.sizeAt output_path) frames.length])
    else
      (fs1, some output_path,
        [ConsoleLine.saved output_path (fs1.sizeAt output_path) frames.length])

/-- A source file: absolute path (the dedup key) and extension. -/
structure SourceFile where
  path : String
  ext : String
deriving DecidableEq

/-- Python str.lower restricted to ASCII case folding (the supported
extensions are ASCII), written structurally over the character data
so that it evaluates. -/
def lowerStr (s : String) : String := String.mk (s.data.map Char.toLower)

/-- file_path.suffix.lower() in SUPPORTED_EXTENSIONS. -/
def supported (f : SourceFile) : Bool :=
  lowerStr f.ext ∈ SUPPORTED_EXTENSIONS

/-- The try/except boundary of optimize_image (lines 40-91): the
body (abstracted as an outcome oracle that either returns the output
path option or raises with a cause) is run after the processing
line; any exception is caught, logged with file name and cause, and
None is returned. -/
def optimize_call (outcome : String → Except String (Option String))
    (name : String) : Option String × List ConsoleLine :=
  match outcome name with
  | Except.ok r => (r, [ConsoleLine.processing name])
  | Except.error e =>
      (none, [ConsoleLine.processing name, ConsoleLine.errorLine name e])

/-- process_existing_files (lines 191-195): call the optimizer on
every supported file in listing order; the loop body never raises
because optimize_image catches. Returns the concatenated console
output. -/
def process_existing_files (outcome : String → Except String (Option String))
    (files : List SourceFile) : List ConsoleLine :=
  match files with
  | [] => []
  | f :: rest =>
      (if supported f then (optimize_call outcome f.path).2 else []) ++
        process_existing_files outcome rest

/-- A watchdog file-created event. -/
structure Event where
  is_directory : Bool
  src : SourceFile

/-- The dispatcher state: the processed-files set. -/
structure ImageHandler where
  processed_files : List String
deriving DecidableEq

/-- ImageHandler.on_created (lines 166-188): skip directories,
unsupported suffixes, already processed paths, and files that no
longer exist after the 0.5s settle delay (existence after the delay
is a boolean oracle); otherwise record the path and run the
optimizer. The final boolean reports whether optimize_image was
invoked. -/
def on_created (outcome : String → Except String (Option String))
    (existsAfterDelay : String → Bool) (h : ImageHandler) (ev : Event) :
    ImageHandler × List ConsoleLine × Bool :=
  if ev.is_directory = true then (h, [], false)
  else if supported ev.src = false then (h, [], false)
  else if ev.src.path ∈ h.processed_files then (h, [], false)
  else if existsAfterDelay ev.src.path = false then (h, [], false)
  else
    (⟨ev.src.path :: h.processed_files⟩,
      (optimize_call outcome ev.src.path).2, true)

/-- The empty output directory. -/
def emptyFS : FS := fun _ => none

/-- A 1x1 RGBA image whose single pixel is fully opaque. -/
def imgOpaqueRGBA : PILImage :=
  { mode := Mode.RGBA, width := 1, height := 1,
    transparencyInfo := false, alphas := [255] }

/-- A codec whose every encoding exceeds the 256KB limit; the JPEG
size additionally depends injectively on the quality. -/
def bigCodec : Codec where
  encodePNG := fun _ => List.replicate (MAX_SIZE_BYTES + 1) 0
  encodeJPEG := fun _ q => List.replicate (MAX_SIZE_BYTES + 1 + q) 0
  quantize := fun img => { img with mode := Mode.P }
  encodeGIF := fun _ _ _ => List.replicate (MAX_SIZE_BYTES + 1) 0

/-- A codec whose every encoding is a single byte (always within the
limit). -/
def tinyCodec : Codec where
  encodePNG := fun _ => [0]
  encodeJPEG := fun _ _ => [0]
  quantize := fun img => { img with mode := Mode.P }
  encodeGIF := fun _ _ _ => [0]

/-- A 500x500 fully opaque RGB image. -/
def img500 : PILImage :=
  { mode := Mode.RGB, width := 500, height := 500,
    transparencyInfo := false, alphas := [] }

/-! Helper lemmas about the filesystem model. -/

theorem FS.write_self (fs : FS) (p : String) (b : List Nat) :
    fs.write p b p = some b := by
  simp [FS.write]

theorem FS.write_other (fs : FS) (p q : String) (b : List Nat) (h : q ≠ p) :
    fs.write p b q = fs q := by
  simp [FS.write, h]

theorem FS.sizeAt_write_self (fs : FS) (p : String) (b : List Nat) :
    (fs.write p b).sizeAt p = b.length := by
  simp [FS.sizeAt, FS.write]

theorem FS.write_write (fs : FS) (p : String) (a b : List Nat) :
    (fs.write p a).write p b = fs.write p b := by
  funext q
  by_cases hq : q = p <;> simp [FS.write, hq]

theorem FS.write_cancel (fs : FS) (p : String) (b : List Nat)
    (h : fs p = some b) : fs.write p b = fs := by
  funext q
  by_cases hq : q = p <;> simp [FS.write, hq, h.symm]

/-! Helper lemmas about frame halving. -/

theorem everyOther_length {α : Type} (l : List α) :
    (everyOther l).length = (l.length + 1) / 2 := by
  induction l using everyOther.induct with
  | case1 => simp [everyOther]
  | case2 a => simp [everyOther]
  | case3 a b rest ih => simp [everyOther, ih]; omega

theorem everyOther_getElemQ {α : Type} (l : List α) :
    ∀ i : Nat, (everyOther l)[i]? = l[2 * i]? := by
  induction l using everyOther.induct with
  | case1 => intro i; simp [everyOther]
  | case2 a =>
      intro i
      match i with
      | 0 => simp [everyOther]
      | (j+1) =>
          rw [show 2 * (j + 1) = (2 * j + 1) + 1 by ring]
          simp [everyOther]
  | case3 a b rest ih =>
      intro i
      match i with
      | 0 => simp [everyOther]
      | (j+1) =>
          rw [show 2 * (j + 1) = (2 * j + 1) + 1 by ring]
          simp only [everyOther, List.getElem?_cons_succ]
          exact ih j

/-! Helper lemmas about the JPEG quality ladder loop. -/

theorem swsl_eq_stop (c : Codec) (img : PILImage) (path : String) (fs : FS)
    (q : Nat) (h10 : ¬ 10 < q) : swslFsLoop c img path fs q = (fs, []) := by
  rw [swslFsLoop]; simp [h10]

theorem swsl_eq_fit (c : Codec) (img : PILImage) (path : String) (fs : FS)
    (q : Nat) (h10 : 10 < q)
    (hfit : (c.encodeJPEG img q).length ≤ MAX_SIZE_BYTES) :
    swslFsLoop c img path fs q = (fs.write path (c.encodeJPEG img q), [q]) := by
  rw [swslFsLoop]; simp [h10, FS.sizeAt_write_self, hfit]

theorem swsl_eq_step (c : Codec) (img : PILImage) (path : String) (fs : FS)
    (q : Nat) (h10 : 10 < q)
    (hbig : MAX_SIZE_BYTES < (c.encodeJPEG img q).length) :
    swslFsLoop c img path fs q =
      ((swslFsLoop c img path (fs.write path (c.encodeJPEG img q)) (q - 5)).1,
        q :: (swslFsLoop c img path (fs.write path (c.encodeJPEG img q)) (q - 5)).2) := by
  rw [swslFsLoop]
  simp [h10, FS.sizeAt_write_self, Nat.not_le.mpr hbig]

theorem swsl_ne_nil (c : Codec) (img : PILImage) (path : String) (fs : FS)
    (q : Nat) (h10 : 10 < q) : (swslFsLoop c img path fs q).2 ≠ [] := by
  by_cases hfit : (c.encodeJPEG img q).length ≤ MAX_SIZE_BYTES
  · rw [swsl_eq_fit c img path fs q h10 hfit]; simp
  · rw [swsl_eq_step c img path fs q h10 (Nat.not_le.mp hfit)]; simp

theorem swsl_getElem (c : Codec) (img : PILImage) (path : String) :
    ∀ (q : Nat) (fs : FS) (i : Nat), i < (swslFsLoop c img path fs q).2.length →
      (swslFsLoop c img path fs q).2[i]? = some (q - 5 * i) := by
  intro q
  induction q using Nat.strong_induction_on with
  | _ q ih =>
    intro fs i hi
    by_cases h10 : 10 < q
    · by_cases hfit : (c.encodeJPEG img q).length ≤ MAX_SIZE_BYTES
      · rw [swsl_eq_fit c img path fs q h10 hfit] at hi ⊢
        simp at hi
        subst hi
        simp
      · rw [swsl_eq_step c img path fs q h10 (Nat.not_le.mp hfit)] at hi ⊢
        match i with
        | 0 => simp
        | (j+1) =>
            simp only [List.getElem?_cons_succ]
            rw [ih (q - 5) (by omega) _ j (by simpa using hi)]
            congr 1
            omega
    · rw [swsl_eq_stop c img path fs q h10] at hi
      simp at hi


theorem swsl_fail (c : Codec) (img : PILImage) (path : String) :
    ∀ (q : Nat) (fs : FS) (i : Nat),
      i + 1 < (swslFsLoop c img path fs q).2.length →
      MAX_SIZE_BYTES < (c.encodeJPEG img (q - 5 * i)).length := by
  intro q
  induction q using Nat.strong_induction_on with
  | _ q ih =>
    intro fs i hi
    by_cases h10 : 10 < q
    · by_cases hfit : (c.encodeJPEG img q).length ≤ MAX_SIZE_BYTES
      · rw [swsl_eq_fit c img path fs q h10 hfit] at hi
        simp at hi
      · rw [swsl_eq_step c img path fs q h10 (Nat.not_le.mp hfit)] at hi
        match i with
        | 0 => simpa using Nat.not_le.mp hfit
        | (j+1) =>
            rw [show q - 5 * (j + 1) = q - 5 - 5 * j by omega]
            exact ih (q - 5) (by omega) _ j (by simpa using hi)
    · rw [swsl_eq_stop c img path fs q h10] at hi
      simp at hi

theorem swsl_mem_gt (c : Codec) (img : PILImage) (path : String) :
    ∀ (q : Nat) (fs : FS) (x : Nat), x ∈ (swslFsLoop c img path fs q).2 →
      10 < x := by
  intro q
  induction q using Nat.strong_induction_on with
  | _ q ih =>
    intro fs x hx
    by_cases h10 : 10 < q
    · by_cases hfit : (c.encodeJPEG img q).length ≤ MAX_SIZE_BYTES
      · rw [swsl_eq_fit c img path fs q h10 hfit] at hx
        simp at hx
        omega
      · rw [swsl_eq_step c img path fs q h10 (Nat.not_le.mp hfit)] at hx
        rcases List.mem_cons.mp hx with h | h
        · omega
        · exact ih (q - 5) (by omega) _ x h
    · rw [swsl_eq_stop c img path fs q h10] at hx
      simp at hx

theorem swsl_last_fs (c : Codec) (img : PILImage) (path : String) :
    ∀ (q : Nat) (fs : FS), 10 < q →
      ∃ qf, (swslFsLoop c img path fs q).2.getLast? = some qf ∧
        (swslFsLoop c img path fs q).1 path = some (c.encodeJPEG img qf) ∧
        10 < qf ∧
        ((c.encodeJPEG img qf).length ≤ MAX_SIZE_BYTES ∨ qf ≤ 15) := by
  intro q
  induction q using Nat.strong_induction_on with
  | _ q ih =>
    intro fs h10
    by_cases hfit : (c.encodeJPEG img q).length ≤ MAX_SIZE_BYTES
    · refine ⟨q, ?_⟩
      rw [swsl_eq_fit c img path fs q h10 hfit]
      exact ⟨rfl, FS.write_self _ _ _, h10, Or.inl hfit⟩
    · rw [swsl_eq_step c img path fs q h10 (Nat.not_le.mp hfit)]
      by_cases h10' : 10 < q - 5
      · obtain ⟨qf, hlast, hpath, hqf10, hdisj⟩ :=
          ih (q - 5) (by omega) (fs.write path (c.encodeJPEG img q)) h10'
        refine ⟨qf, ?_, hpath, hqf10, hdisj⟩
        obtain ⟨x, xs, hxs⟩ := List.exists_cons_of_ne_nil
          (swsl_ne_nil c img path (fs.write path (c.encodeJPEG img q)) (q - 5) h10')
        rw [hxs]
        rw [hxs] at hlast
        simpa using hlast
      · rw [swsl_eq_stop c img path _ (q - 5) h10']
        exact ⟨q, rfl, FS.write_self _ _ _, h10, Or.inr (by omega)⟩

theorem swsl_agree (c : Codec) (img : PILImage) (path : String) :
    ∀ (q : Nat) (fs fs' : FS), fs path = fs' path →
      (swslFsLoop c img path fs q).1 path = (swslFsLoop c img path fs' q).1 path ∧
      (swslFsLoop c img path fs q).2 = (swslFsLoop c img path fs' q).2 := by
  intro q
  induction q using Nat.strong_induction_on with
  | _ q ih =>
    intro fs fs' hagree
    by_cases h10 : 10 < q
    · by_cases hfit : (c.encodeJPEG img q).length ≤ MAX_SIZE_BYTES
      · rw [swsl_eq_fit c img path fs q h10 hfit,
            swsl_eq_fit c img path fs' q h10 hfit]
        simp [FS.write_self]
      · rw [swsl_eq_step c img path fs q h10 (Nat.not_le.mp hfit),
            swsl_eq_step c img path fs' q h10 (Nat.not_le.mp hfit)]
        have h := ih (q - 5) (by omega)
          (fs.write path (c.encodeJPEG img q))
          (fs'.write path (c.encodeJPEG img q))
          (by rw [FS.write_self, FS.write_self])
        exact ⟨h.1, by rw [h.2]⟩
    · rw [swsl_eq_stop c img path fs q h10, swsl_eq_stop c img path fs' q h10]
      exact ⟨hagree, rfl⟩

theorem swsl_indep (c : Codec) (img : PILImage) (path : String)
    (q : Nat) (fs fs' : FS) (h10 : 10 < q) :
    (swslFsLoop c img path fs q).1 path = (swslFsLoop c img path fs' q).1 path ∧
    (swslFsLoop c img path fs q).2 = (swslFsLoop c img path fs' q).2 := by
  by_cases hfit : (c.encodeJPEG img q).length ≤ MAX_SIZE_BYTES
  · rw [swsl_eq_fit c img path fs q h10 hfit,
        swsl_eq_fit c img path fs' q h10 hfit]
    simp [FS.write_self]
  · rw [swsl_eq_step c img path fs q h10 (Nat.not_le.mp hfit),
        swsl_eq_step c img path fs' q h10 (Nat.not_le.mp hfit)]
    have h := swsl_agree c img path (q - 5)
      (fs.write path (c.encodeJPEG img q))
      (fs'.write path (c.encodeJPEG img q))
      (by rw [FS.write_self, FS.write_self])
    exact ⟨h.1, by rw [h.2]⟩

theorem swsl_frame (c : Codec) (img : PILImage) (path : String) :
    ∀ (q : Nat) (fs : FS) (p : String), p ≠ path →
      (swslFsLoop c img path fs q).1 p = fs p := by
  intro q
  induction q using Nat.strong_induction_on with
  | _ q ih =>
    intro fs p hp
    by_cases h10 : 10 < q
    · by_cases hfit : (c.encodeJPEG img q).length ≤ MAX_SIZE_BYTES
      · rw [swsl_eq_fit c img path fs q h10 hfit]
        exact FS.write_other _ _ _ _ hp
      · rw [swsl_eq_step c img path fs q h10 (Nat.not_le.mp hfit)]
        rw [ih (q - 5) (by omega) _ p hp]
        exact FS.write_other _ _ _ _ hp
    · rw [swsl_eq_stop c img path fs q h10]

theorem swsl_allfail (c : Codec) (img : PILImage) (path : String)
    (hbig : ∀ j, 10 < j → MAX_SIZE_BYTES < (c.encodeJPEG img j).length) :
    ∀ (q : Nat) (fs : FS), 10 < q → q % 5 = 0 →
      (swslFsLoop c img path fs q).2.getLast? = some 15 ∧
      (swslFsLoop c img path fs q).1 path = some (c.encodeJPEG img 15) := by
  intro q
  induction q using Nat.strong_induction_on with
  | _ q ih =>
    intro fs h10 h5
    rw [swsl_eq_step c img path fs q h10 (hbig q h10)]
    by_cases h10' : 10 < q - 5
    · obtain ⟨hl, hp⟩ :=
        ih (q - 5) (by omega) (fs.write path (c.encodeJPEG img q)) h10' (by omega)
      constructor
      · obtain ⟨x, xs, hxs⟩ := List.exists_cons_of_ne_nil
          (swsl_ne_nil c img path (fs.write path (c.encodeJPEG img q)) (q - 5) h10')
        rw [hxs]
        rw [hxs] at hl
        simpa using hl
      · exact hp
    · have hq15 : q = 15 := by omega
      subst hq15
      rw [swsl_eq_stop c img path _ (15 - 5) (by omega)]
      exact ⟨by simp, FS.write_self _ _ _⟩

/-! Helper lemmas about the thumbnail geometry. -/

theorem round_aspect_ge_one (v : ℚ) (key : ℤ → ℚ) : 1 ≤ round_aspect v key :=
  le_max_right _ _

theorem round_aspect_le (v : ℚ) (key : ℤ → ℚ) (B : ℤ) (hB : 1 ≤ B)
    (hv : v ≤ (B : ℚ)) : round_aspect v key ≤ B := by
  unfold round_aspect
  apply max_le _ hB
  split
  · calc ⌊v⌋ ≤ ⌊(B : ℚ)⌋ := Int.floor_le_floor hv
      _ = B := Int.floor_intCast B
  · exact Int.ceil_le.mpr hv

theorem round_aspect_near (v : ℚ) (key : ℤ → ℚ) (hv : 0 < v) :
    |(round_aspect v key : ℚ) - v| < 1 := by
  unfold round_aspect
  rw [abs_sub_lt_iff]
  have hfloor_lt : (⌊v⌋ : ℚ) < v + 1 := lt_of_le_of_lt (Int.floor_le v) (by linarith)
  have hceil_lt : (⌈v⌉ : ℚ) < v + 1 := Int.ceil_lt_add_one v
  have hfloor_gt : v - 1 < (⌊v⌋ : ℚ) := Int.sub_one_lt_floor v
  have hceil_gt : v - 1 < (⌈v⌉ : ℚ) := lt_of_lt_of_le (by linarith) (Int.le_ceil v)
  push_cast
  constructor
  · rw [sub_lt_iff_lt_add, add_comm]
    apply max_lt _ (by linarith)
    split <;> assumption
  · rw [sub_lt_iff_lt_add]
    have hlt : v - 1 <
        (if key ⌊v⌋ ≤ key ⌈v⌉ then ((⌊v⌋ : ℤ) : ℚ) else ((⌈v⌉ : ℤ) : ℚ)) ⊔ 1 := by
      apply lt_max_of_lt_left
      split <;> assumption
    linarith [hlt]

theorem thumbnailDims_spec (w h : Nat) (hw : 1 ≤ w) (hh : 1 ≤ h) :
    (thumbnailDims w h 128 128).1 ≤ 128 ∧
    (thumbnailDims w h 128 128).2 ≤ 128 ∧
    (thumbnailDims w h 128 128).1 ≤ w ∧
    (thumbnailDims w h 128 128).2 ≤ h ∧
    (w ≤ 128 → h ≤ 128 → thumbnailDims w h 128 128 = (w, h)) ∧
    |((thumbnailDims w h 128 128).1 : ℤ) * h -
      ((thumbnailDims w h 128 128).2 : ℤ) * w| < ((max w h : Nat) : ℤ) := by
  have hW : (0 : ℚ) < (w : ℚ) := by exact_mod_cast hw
  have hH : (0 : ℚ) < (h : ℚ) := by exact_mod_cast hh
  by_cases hin : w ≤ 128 ∧ h ≤ 128
  · have he : thumbnailDims w h 128 128 = (w, h) := by
      unfold thumbnailDims; rw [if_pos hin]
    rw [he]
    refine ⟨hin.1, hin.2, le_refl _, le_refl _, fun _ _ => rfl, ?_⟩
    have h0 : (w : ℤ) * h - (h : ℤ) * w = 0 := by ring
    rw [h0, abs_zero]
    have hw' : (0 : ℤ) < w := by exact_mod_cast hw
    calc (0 : ℤ) < (w : ℤ) := hw'
      _ ≤ ((max w h : Nat) : ℤ) := by exact_mod_cast Nat.le_max_left w h
  · by_cases hbr : (w : ℚ) / (h : ℚ) ≤ (128 : ℚ) / (128 : ℚ)
    · -- width-bounded branch: w ≤ h, so h > 128
      have haspect1 : (w : ℚ) / (h : ℚ) ≤ 1 := by
        calc (w : ℚ) / h ≤ (128 : ℚ) / 128 := hbr
          _ = 1 := by norm_num
      have hwh : w ≤ h := by
        rw [div_le_one hH] at haspect1
        exact_mod_cast haspect1
      have hh128 : 128 < h := by omega
      have he : thumbnailDims w h 128 128 =
          ((round_aspect ((128 : ℚ) * ((w : ℚ) / (h : ℚ)))
            fun n => |(w : ℚ) / (h : ℚ) - (n : ℚ) / (128 : ℚ)|).toNat, 128) := by
        unfold thumbnailDims
        rw [if_neg hin]
        simp only [Nat.cast_ofNat]
        rw [if_pos (by exact_mod_cast hbr)]
      rw [he]
      obtain ⟨x, hx⟩ : ∃ x : ℤ, round_aspect ((128 : ℚ) * ((w : ℚ) / (h : ℚ)))
          (fun n => |(w : ℚ) / (h : ℚ) - (n : ℚ) / (128 : ℚ)|) = x := ⟨_, rfl⟩
      rw [hx]
      have haspect0 : (w : ℚ) / (h : ℚ) ≤ 1 := haspect1
      have hv_pos : 0 < (128 : ℚ) * ((w : ℚ) / (h : ℚ)) := by positivity
      have hv_le128 : (128 : ℚ) * ((w : ℚ) / (h : ℚ)) ≤ 128 := by nlinarith
      have hv_lew : (128 : ℚ) * ((w : ℚ) / (h : ℚ)) ≤ (w : ℚ) := by
        have hfrac : (w : ℚ) / h * (128 : ℚ) ≤ (w : ℚ) / h * (h : ℚ) := by
          apply mul_le_mul_of_nonneg_left _ (by positivity)
          exact_mod_cast hh128.le
        have hcancel : (w : ℚ) / h * (h : ℚ) = (w : ℚ) :=
          div_mul_cancel₀ _ (ne_of_gt hH)
        linarith
      have hx1 : 1 ≤ x := hx ▸ round_aspect_ge_one _ _
      have hx128 : x ≤ 128 :=
        hx ▸ round_aspect_le _ _ 128 (by norm_num) (by exact_mod_cast hv_le128)
      have hxw : x ≤ (w : ℤ) :=
        hx ▸ round_aspect_le _ _ w (by exact_mod_cast hw) (by exact_mod_cast hv_lew)
      have hnear : |(x : ℚ) - (128 : ℚ) * ((w : ℚ) / (h : ℚ))| < 1 :=
        hx ▸ round_aspect_near _ _ hv_pos
      refine ⟨by omega, le_refl _, by omega, hh128.le,
        fun hw' hh' => absurd ⟨hw', hh'⟩ hin, ?_⟩
      have hq : |(x : ℚ) * h - 128 * w| < (h : ℚ) := by
        have hexp : (x : ℚ) * h - 128 * w
            = ((x : ℚ) - (128 : ℚ) * ((w : ℚ) / (h : ℚ))) * h := by
          field_simp
        rw [hexp, abs_mul, abs_of_pos hH]
        calc |(x : ℚ) - (128 : ℚ) * ((w : ℚ) / (h : ℚ))| * h
            < 1 * h := mul_lt_mul_of_pos_right hnear hH
          _ = (h : ℚ) := one_mul _
      have htn : ((x.toNat : ℤ)) = x := Int.toNat_of_nonneg (by omega)
      have hz : |(x.toNat : ℤ) * h - 128 * w| < (h : ℤ) := by
        rw [htn]
        exact_mod_cast hq
      calc |((x.toNat : Nat) : ℤ) * h - ((128 : Nat) : ℤ) * w|
          = |(x.toNat : ℤ) * h - 128 * w| := by norm_num
        _ < (h : ℤ) := hz
        _ ≤ ((max w h : Nat) : ℤ) := by exact_mod_cast Nat.le_max_right w h
    · -- height-bounded branch: h < w, so w > 128
      have haspect1 : 1 < (w : ℚ) / (h : ℚ) := by
        have hlt := lt_of_not_le hbr
        rw [show (128 : ℚ) / (128 : ℚ) = 1 by norm_num] at hlt
        exact hlt
      have hwh : h < w := by
        have := (one_lt_div hH).mp haspect1
        exact_mod_cast this
      have hw128 : 128 < w := by omega
      have he : thumbnailDims w h 128 128 =
          (128, (round_aspect ((128 : ℚ) / ((w : ℚ) / (h : ℚ)))
            fun n => if n = 0 then 0
              else |(w : ℚ) / (h : ℚ) - (128 : ℚ) / (n : ℚ)|).toNat) := by
        unfold thumbnailDims
        rw [if_neg hin]
        simp only [Nat.cast_ofNat]
        rw [if_neg (by exact_mod_cast hbr)]
      rw [he]
      obtain ⟨y, hy⟩ : ∃ y : ℤ, round_aspect ((128 : ℚ) / ((w : ℚ) / (h : ℚ)))
          (fun n => if n = 0 then 0
            else |(w : ℚ) / (h : ℚ) - (128 : ℚ) / (n : ℚ)|) = y := ⟨_, rfl⟩
      rw [hy]
      have hv_eq : (128 : ℚ) / ((w : ℚ) / (h : ℚ)) = 128 * (h : ℚ) / (w : ℚ) :=
        div_div_eq_mul_div 128 _ _
      have hv_pos : 0 < (128 : ℚ) / ((w : ℚ) / (h : ℚ)) := by
        rw [hv_eq]; positivity
      have hcw : (h : ℚ) ≤ (w : ℚ) := by exact_mod_cast hwh.le
      have hc128 : (128 : ℚ) ≤ (w : ℚ) := by exact_mod_cast hw128.le
      have hv_le128 : (128 : ℚ) / ((w : ℚ) / (h : ℚ)) ≤ 128 := by
        rw [hv_eq, div_le_iff₀ hW]
        nlinarith
      have hv_leh : (128 : ℚ) / ((w : ℚ) / (h : ℚ)) ≤ (h : ℚ) := by
        rw [hv_eq, div_le_iff₀ hW]
        nlinarith
      have hy1 : 1 ≤ y := hy ▸ round_aspect_ge_one _ _
      have hy128 : y ≤ 128 :=
        hy ▸ round_aspect_le _ _ 128 (by norm_num) (by exact_mod_cast hv_le128)
      have hyh : y ≤ (h : ℤ) :=
        hy ▸ round_aspect_le _ _ h (by exact_mod_cast hh) (by exact_mod_cast hv_leh)
      have hnear : |(y : ℚ) - (128 : ℚ) / ((w : ℚ) / (h : ℚ))| < 1 :=
        hy ▸ round_aspect_near _ _ hv_pos
      refine ⟨le_refl _, by omega, hw128.le, by omega,
        fun hw' hh' => absurd ⟨hw', hh'⟩ hin, ?_⟩
      have hq : |(128 : ℚ) * h - (y : ℚ) * w| < (w : ℚ) := by
        have hexp : (128 : ℚ) * h - (y : ℚ) * w
            = ((128 : ℚ) / ((w : ℚ) / (h : ℚ)) - (y : ℚ)) * w := by
          rw [hv_eq]
          field_simp
          ring
        rw [hexp, abs_mul, abs_of_pos hW, abs_sub_comm]
        calc |(y : ℚ) - (128 : ℚ) / ((w : ℚ) / (h : ℚ))| * w
            < 1 * w := mul_lt_mul_of_pos_right hnear hW
          _ = (w : ℚ) := one_mul _
      have htn : ((y.toNat : ℤ)) = y := Int.toNat_of_nonneg (by omega)
      have hz : |(128 : ℤ) * h - (y.toNat : ℤ) * w| < (w : ℤ) := by
        rw [htn]
        exact_mod_cast hq
      calc |((128 : Nat) : ℤ) * h - ((y.toNat : Nat) : ℤ) * w|
          = |(128 : ℤ) * h - (y.toNat : ℤ) * w| := by norm_num
        _ < (w : ℤ) := hz
        _ ≤ ((max w h : Nat) : ℤ) := by exact_mod_cast Nat.le_max_left w h

/-! Helper lemmas about modes, paths and the static pipeline. -/

theorem thumbnailImg_mode (img : PILImage) : (thumbnailImg img).mode = img.mode := rfl

theorem normalizeMode_mode_alpha (img : PILImage) (h : needsAlpha img = true) :
    (normalizeMode img).mode = Mode.RGBA := by
  simp [normalizeMode, h, convertRGBA]

theorem normalizeMode_mode_opaque (img : PILImage) (h : needsAlpha img = false) :
    (normalizeMode img).mode = Mode.RGB := by
  simp [normalizeMode, h, convertRGB]

theorem jpg_ne_png (stem : String) :
    stem ++ "_emoji.jpg" ≠ stem ++ "_emoji.png" := by
  intro hcontra
  have hd := congrArg String.data hcontra
  simp only [String.data_append] at hd
  have := List.append_cancel_left hd
  simp at this

theorem opt_eq_small (c : Codec) (stem : String) (img : PILImage) (fs : FS)
    (hfit : (c.encodePNG (thumbnailImg (normalizeMode img))).length ≤ MAX_SIZE_BYTES) :
    optimize_image c stem img fs =
      (fs.write (stem ++ "_emoji.png")
        (c.encodePNG (thumbnailImg (normalizeMode img))),
       some (stem ++ "_emoji.png")) := by
  unfold optimize_image
  simp [FS.sizeAt_write_self, Nat.not_lt.mpr hfit]

theorem opt_eq_quant_fit (c : Codec) (stem : String) (img : PILImage) (fs : FS)
    (hmode : (thumbnailImg (normalizeMode img)).mode = Mode.RGBA)
    (hbig : MAX_SIZE_BYTES < (c.encodePNG (thumbnailImg (normalizeMode img))).length)
    (hqfit : (c.encodePNG (c.quantize (thumbnailImg (normalizeMode img)))).length
      ≤ MAX_SIZE_BYTES) :
    optimize_image c stem img fs =
      ((fs.write (stem ++ "_emoji.png")
          (c.encodePNG (thumbnailImg (normalizeMode img)))).write
            (stem ++ "_emoji.png")
            (c.encodePNG (c.quantize (thumbnailImg (normalizeMode img)))),
       some (stem ++ "_emoji.png")) := by
  unfold optimize_image
  simp [FS.sizeAt_write_self, hmode, hbig, Nat.not_lt.mpr hqfit]

theorem opt_eq_quant_jpeg (c : Codec) (stem : String) (img : PILImage) (fs : FS)
    (hmode : (thumbnailImg (normalizeMode img)).mode = Mode.RGBA)
    (hbig : MAX_SIZE_BYTES < (c.encodePNG (thumbnailImg (normalizeMode img))).length)
    (hqbig : MAX_SIZE_BYTES <
      (c.encodePNG (c.quantize (thumbnailImg (normalizeMode img)))).length) :
    optimize_image c stem img fs =
      (save_with_size_limit c (convertRGB (thumbnailImg (normalizeMode img)))
        (stem ++ "_emoji.jpg")
        ((fs.write (stem ++ "_emoji.png")
            (c.encodePNG (thumbnailImg (normalizeMode img)))).write
              (stem ++ "_emoji.png")
              (c.encodePNG (c.quantize (thumbnailImg (normalizeMode img))))),
       some (stem ++ "_emoji.jpg")) := by
  unfold optimize_image
  simp [FS.sizeAt_write_self, hmode, hbig, hqbig]

theorem opt_eq_rgb_jpeg (c : Codec) (stem : String) (img : PILImage) (fs : FS)
    (hmode : (thumbnailImg (normalizeMode img)).mode ≠ Mode.RGBA)
    (hbig : MAX_SIZE_BYTES < (c.encodePNG (thumbnailImg (normalizeMode img))).length) :
    optimize_image c stem img fs =
      (save_with_size_limit c (convertRGB (thumbnailImg (normalizeMode img)))
        (stem ++ "_emoji.jpg")
        (fs.write (stem ++ "_emoji.png")
          (c.encodePNG (thumbnailImg (normalizeMode img)))),
       some (stem ++ "_emoji.jpg")) := by
  unfold optimize_image
  simp [FS.sizeAt_write_self, hmode, hbig]

theorem anim_eq_fit (c : Codec) (stem : String) (decoded : List (PILImage × Nat))
    (loop : Nat) (fs : FS) (hne : decoded ≠ [])
    (hfit : (c.encodeGIF (decoded.map fun p => thumbnailImg p.1)
      (decoded.map Prod.snd) loop).length ≤ MAX_SIZE_BYTES) :
    optimize_animated_gif c stem decoded loop fs =
      (fs.write (stem ++ "_emoji.gif")
        (c.encodeGIF (decoded.map fun p => thumbnailImg p.1)
          (decoded.map Prod.snd) loop),
       some (stem ++ "_emoji.gif"),
       [ConsoleLine.saved (stem ++ "_emoji.gif")
         (c.encodeGIF (decoded.map fun p => thumbnailImg p.1)
           (decoded.map Prod.snd) loop).length
         decoded.length]) := by
  have hmapne : decoded.map (fun p => thumbnailImg p.1) ≠ [] := by
    simpa using hne
  unfold optimize_animated_gif
  simp [hmapne, FS.sizeAt_write_self, Nat.not_lt.mpr hfit]

theorem anim_eq_big (c : Codec) (stem : String) (decoded : List (PILImage × Nat))
    (loop : Nat) (fs : FS) (hne : decoded ≠ [])
    (hbig : MAX_SIZE_BYTES < (c.encodeGIF (decoded.map fun p => thumbnailImg p.1)
      (decoded.map Prod.snd) loop).length) :
    optimize_animated_gif c stem decoded loop fs =
      ((fs.write (stem ++ "_emoji.gif")
          (c.encodeGIF (decoded.map fun p => thumbnailImg p.1)
            (decoded.map Prod.snd) loop)).write (stem ++ "_emoji.gif")
        (c.encodeGIF (everyOther (decoded.map fun p => thumbnailImg p.1))
          ((everyOther (decoded.map Prod.snd)).map fun d => d * 2) loop),
       some (stem ++ "_emoji.gif"),
       [ConsoleLine.saved (stem ++ "_emoji.gif")
         (c.encodeGIF (everyOther (decoded.map fun p => thumbnailImg p.1))
           ((everyOther (decoded.map Prod.snd)).map fun d => d * 2) loop).length
         decoded.length]) := by
  have hmapne : decoded.map (fun p => thumbnailImg p.1) ≠ [] := by
    simpa using hne
  unfold optimize_animated_gif
  simp [hmapne, FS.sizeAt_write_self, hbig]

/-! The claims. -/

/-- C1 counterexample: a 1x1 fully opaque RGBA source (alpha-carrying
after normalization) under a codec whose PNG and quantized-PNG
encodings both exceed 256KB: optimize_image returns the .jpg path,
not the quantized .png — the claim that JPEG fallback never happens
for transparency-requiring sources is false on the code (line 80's
size check is not guarded by the mode). -/
theorem C1_counterexample :
    needsAlpha imgOpaqueRGBA = true ∧
    (optimize_image bigCodec "x" imgOpaqueRGBA emptyFS).2 = some "x_emoji.jpg" ∧
    (optimize_image bigCodec "x" imgOpaqueRGBA emptyFS).2 ≠ some "x_emoji.png" := by
  have hmode : (thumbnailImg (normalizeMode imgOpaqueRGBA)).mode = Mode.RGBA := by
    decide
  have hbig : MAX_SIZE_BYTES <
      (bigCodec.encodePNG (thumbnailImg (normalizeMode imgOpaqueRGBA))).length := by
    simp [bigCodec]
  have hqbig : MAX_SIZE_BYTES <
      (bigCodec.encodePNG (bigCodec.quantize
        (thumbnailImg (normalizeMode imgOpaqueRGBA)))).length := by
    simp [bigCodec]
  refine ⟨by decide, ?_, ?_⟩
  · rw [opt_eq_quant_jpeg bigCodec "x" imgOpaqueRGBA emptyFS hmode hbig hqbig]
    decide
  · rw [opt_eq_quant_jpeg bigCodec "x" imgOpaqueRGBA emptyFS hmode hbig hqbig]
    decide

/-- C1 (amended): for a source that still carries transparency after
normalization (RGBA) whose first PNG encoding exceeds 256KB, the
quantized PNG is the final .png artifact only when the quantized
encoding fits within 256KB; when the quantized PNG still exceeds the
limit the optimizer falls back to JPEG (losing transparency) and
returns the .jpg path. -/
theorem C1_alpha_quantize_then_jpeg (c : Codec) (stem : String) (img : PILImage)
    (fs : FS) (halpha : needsAlpha img = true)
    (hbig : MAX_SIZE_BYTES <
      (c.encodePNG (thumbnailImg (normalizeMode img))).length) :
    ((c.encodePNG (c.quantize (thumbnailImg (normalizeMode img)))).length
        ≤ MAX_SIZE_BYTES →
      (optimize_image c stem img fs).2 = some (stem ++ "_emoji.png") ∧
      (optimize_image c stem img fs).1 (stem ++ "_emoji.png") =
        some (c.encodePNG (c.quantize (thumbnailImg (normalizeMode img))))) ∧
    (MAX_SIZE_BYTES <
        (c.encodePNG (c.quantize (thumbnailImg (normalizeMode img)))).length →
      (optimize_image c stem img fs).2 = some (stem ++ "_emoji.jpg")) := by
  have hmode : (thumbnailImg (normalizeMode img)).mode = Mode.RGBA := by
    rw [thumbnailImg_mode]
    exact normalizeMode_mode_alpha img halpha
  constructor
  · intro hqfit
    rw [opt_eq_quant_fit c stem img fs hmode hbig hqfit]
    exact ⟨rfl, FS.write_self _ _ _⟩
  · intro hqbig
    rw [opt_eq_quant_jpeg c stem img fs hmode hbig hqbig]

/-- C1 witness: the amended theorem applied at the concrete
counterexample input. -/
theorem C1_witness :
    (optimize_image bigCodec "x" imgOpaqueRGBA emptyFS).2 =
      some ("x" ++ "_emoji.jpg") :=
  (C1_alpha_quantize_then_jpeg bigCodec "x" imgOpaqueRGBA emptyFS
    (by decide) (by simp [bigCodec])).2 (by simp [bigCodec])

/-- C2 counterexample: under a codec whose JPEG encoding exceeds
256KB at every quality, the last attempted quality of the ladder is
15 (not 10: the while guard quality > 10 exits after the save at
15, so quality 10 is never encoded), and the final written file is
the quality-15 encoding, which differs from the quality-10 one. -/
theorem C2_counterexample :
    (swslFsLoop bigCodec imgOpaqueRGBA "p" emptyFS 95).2.getLast? = some 15 ∧
    save_with_size_limit bigCodec imgOpaqueRGBA "p" emptyFS "p" =
      some (bigCodec.encodeJPEG imgOpaqueRGBA 15) ∧
    bigCodec.encodeJPEG imgOpaqueRGBA 15 ≠ bigCodec.encodeJPEG imgOpaqueRGBA 10 := by
  have hbig : ∀ j, 10 < j →
      MAX_SIZE_BYTES < (bigCodec.encodeJPEG imgOpaqueRGBA j).length := by
    intro j hj
    simp [bigCodec]
    omega
  obtain ⟨hl, hp⟩ := swsl_allfail bigCodec imgOpaqueRGBA "p" hbig 95 emptyFS
    (by norm_num) (by norm_num)
  refine ⟨hl, ?_, ?_⟩
  · rw [save_with_size_limit]
    exact hp
  · intro hcontra
    have hlen := congrArg List.length hcontra
    simp only [bigCodec, List.length_replicate] at hlen
    omega

/-- C2 (amended): the JPEG ladder attempts qualities 95, 90, ...
(the i-th attempt is at 95 - 5i, so quality never increases after a
failed attempt); every attempt before the last exceeded 256KB (the
loop stops at the first passing attempt); at least one attempt is
made; and the final written bytes are the encoding at the last
attempted quality, which either meets the limit or is 15 — the
quality floor 10 named by the claim is never the encoded quality. -/
theorem C2_quality_ladder (c : Codec) (img : PILImage) (path : String) (fs : FS) :
    (∀ i : Nat, i < (swslFsLoop c img path fs 95).2.length →
      (swslFsLoop c img path fs 95).2[i]? = some (95 - 5 * i)) ∧
    (∀ i : Nat, i + 1 < (swslFsLoop c img path fs 95).2.length →
      MAX_SIZE_BYTES < (c.encodeJPEG img (95 - 5 * i)).length) ∧
    (swslFsLoop c img path fs 95).2 ≠ [] ∧
    (∃ qf, (swslFsLoop c img path fs 95).2.getLast? = some qf ∧
      save_with_size_limit c img path fs path = some (c.encodeJPEG img qf) ∧
      ((c.encodeJPEG img qf).length ≤ MAX_SIZE_BYTES ∨ qf = 15)) := by
  refine ⟨fun i hi => swsl_getElem c img path 95 fs i hi,
    fun i hi => swsl_fail c img path 95 fs i hi,
    swsl_ne_nil c img path fs 95 (by norm_num), ?_⟩
  obtain ⟨qf, hlast, hpath, hqf10, hdisj⟩ :=
    swsl_last_fs c img path 95 fs (by norm_num)
  refine ⟨qf, hlast, by rw [save_with_size_limit]; exact hpath, ?_⟩
  rcases hdisj with hl | hl
  · exact Or.inl hl
  · right
    have hnn := swsl_ne_nil c img path fs 95 (by norm_num)
    have hlen : 0 < (swslFsLoop c img path fs 95).2.length :=
      List.length_pos.mpr hnn
    have hidx := swsl_getElem c img path 95 fs
      ((swslFsLoop c img path fs 95).2.length - 1) (by omega)
    rw [List.getLast?_eq_getElem?] at hlast
    rw [hidx] at hlast
    have hqf : qf = 95 - 5 * ((swslFsLoop c img path fs 95).2.length - 1) :=
      (Option.some.injEq _ _ ▸ hlast).symm
    omega

/-- C2 witness: the amended theorem applied at a concrete codec whose
single-byte output passes on the first attempt. -/
theorem C2_witness :
    (swslFsLoop tinyCodec imgOpaqueRGBA "p" emptyFS 95).2 ≠ [] :=
  (C2_quality_ladder tinyCodec imgOpaqueRGBA "p" emptyFS).2.2.1

/-- C3: the static pipeline's downscale keeps both output dimensions
within 128, never upscales (dimensions never grow, and an image
already within 128x128 keeps its exact dimensions), and preserves
the aspect ratio within one pixel of rounding: the cross product of
output and source dimensions differs by less than the larger source
dimension. -/
theorem C3_thumbnail_bounds (img : PILImage)
    (hw : 1 ≤ img.width) (hh : 1 ≤ img.height) :
    (thumbnailImg img).width ≤ 128 ∧
    (thumbnailImg img).height ≤ 128 ∧
    (thumbnailImg img).width ≤ img.width ∧
    (thumbnailImg img).height ≤ img.height ∧
    (img.width ≤ 128 → img.height ≤ 128 →
      (thumbnailImg img).width = img.width ∧
      (thumbnailImg img).height = img.height) ∧
    |((thumbnailImg img).width : ℤ) * img.height -
      ((thumbnailImg img).height : ℤ) * img.width|
      < ((max img.width img.height : Nat) : ℤ) := by
  have hw' : (thumbnailImg img).width
      = (thumbnailDims img.width img.height 128 128).1 := rfl
  have hh' : (thumbnailImg img).height
      = (thumbnailDims img.width img.height 128 128).2 := rfl
  obtain ⟨h1, h2, h3, h4, h5, h6⟩ := thumbnailDims_spec img.width img.height hw hh
  rw [hw', hh']
  exact ⟨h1, h2, h3, h4,
    fun ha hb => ⟨by rw [h5 ha hb], by rw [h5 ha hb]⟩, h6⟩

/-- C3 witness: the theorem applied to the concrete 500x500 image;
its thumbnail width is within 128. -/
theorem C3_witness : (thumbnailImg img500).width ≤ 128 :=
  (C3_thumbnail_bounds img500 (by decide) (by decide)).1

/-- C4: for a nonempty decoded animation whose first assembled GIF
exceeds 256KB, the artifact is re-assembled exactly once from the
even-index frames: the written file is exactly the reduced encode
(so no second reduction or quality search can have happened), the
reduced frame count is ceil(N/2), and the i-th retained duration is
exactly twice the source duration at index 2i; if the first assembly
fits, the written file is exactly the full encode preserving all N
frames, their order, durations and loop count. The returned path is
the .gif output either way. -/
theorem C4_frame_reduction (c : Codec) (stem : String)
    (decoded : List (PILImage × Nat)) (loop : Nat) (fs : FS)
    (hne : decoded ≠ []) :
    (MAX_SIZE_BYTES < (c.encodeGIF (decoded.map fun p => thumbnailImg p.1)
        (decoded.map Prod.snd) loop).length →
      (optimize_animated_gif c stem decoded loop fs).1 (stem ++ "_emoji.gif") =
        some (c.encodeGIF (everyOther (decoded.map fun p => thumbnailImg p.1))
          ((everyOther (decoded.map Prod.snd)).map fun d => d * 2) loop) ∧
      (everyOther (decoded.map fun p => thumbnailImg p.1)).length
        = (decoded.length + 1) / 2 ∧
      (∀ i : Nat, ((everyOther (decoded.map Prod.snd)).map fun d => d * 2)[i]?
        = ((decoded.map Prod.snd)[2 * i]?).map fun d => d * 2)) ∧
    ((c.encodeGIF (decoded.map fun p => thumbnailImg p.1)
        (decoded.map Prod.snd) loop).length ≤ MAX_SIZE_BYTES →
      (optimize_animated_gif c stem decoded loop fs).1 (stem ++ "_emoji.gif") =
        some (c.encodeGIF (decoded.map fun p => thumbnailImg p.1)
          (decoded.map Prod.snd) loop)) ∧
    (optimize_animated_gif c stem decoded loop fs).2.1 =
      some (stem ++ "_emoji.gif") := by
  refine ⟨?_, ?_, ?_⟩
  · intro hbig
    rw [anim_eq_big c stem decoded loop fs hne hbig]
    refine ⟨FS.write_self _ _ _, ?_, ?_⟩
    · rw [everyOther_length, List.length_map]
    · intro i
      rw [List.getElem?_map, everyOther_getElemQ]
  · intro hfit
    rw [anim_eq_fit c stem decoded loop fs hne hfit]
    exact FS.write_self _ _ _
  · by_cases hbig : MAX_SIZE_BYTES <
        (c.encodeGIF (decoded.map fun p => thumbnailImg p.1)
          (decoded.map Prod.snd) loop).length
    · rw [anim_eq_big c stem decoded loop fs hne hbig]
    · rw [anim_eq_fit c stem decoded loop fs hne (Nat.not_lt.mp hbig)]

/-- C4 witness: the theorem applied to a concrete one-frame
animation under the within-limit codec. -/
theorem C4_witness :
    (optimize_animated_gif tinyCodec "g" [(imgOpaqueRGBA, 100)] 0 emptyFS).2.1 =
      some ("g" ++ "_emoji.gif") :=
  (C4_frame_reduction tinyCodec "g" [(imgOpaqueRGBA, 100)] 0 emptyFS
    (by simp)).2.2

/-- C5 counterexample: a fully opaque RGBA source (its only pixel has
alpha 255) is still normalized to an RGBA-mode image that the PNG
encoder receives, not RGB: the code keys on the source color mode
(line 52), never on pixel opacity, refuting fully opaque source
gives opaque-mode output. -/
theorem C5_counterexample :
    hasTransparentPixel imgOpaqueRGBA = false ∧
    (thumbnailImg (normalizeMode imgOpaqueRGBA)).mode = Mode.RGBA ∧
    Mode.RGBA ≠ Mode.RGB := by
  refine ⟨by decide, ?_, by decide⟩
  rw [thumbnailImg_mode]
  decide

/-- C5 (amended): the normalized color mode is decided by the source
mode alone: modes RGBA and LA, and palette mode with a transparency
entry, normalize to RGBA; every other mode normalizes to RGB. Under
the Pillow invariant that only such modes can hold a non-opaque
pixel, any source with a transparent pixel normalizes to RGBA; but a
fully opaque RGBA source also normalizes to RGBA, not RGB. -/
theorem C5_mode_by_source_mode (img : PILImage) :
    (needsAlpha img = true → (normalizeMode img).mode = Mode.RGBA) ∧
    (needsAlpha img = false → (normalizeMode img).mode = Mode.RGB) ∧
    (WFImage img → hasTransparentPixel img = true →
      (normalizeMode img).mode = Mode.RGBA) :=
  ⟨normalizeMode_mode_alpha img, normalizeMode_mode_opaque img,
    fun hwf htr => normalizeMode_mode_alpha img (hwf htr)⟩

/-- C5 witness: the amended theorem applied at the concrete opaque
RGBA image. -/
theorem C5_witness : (normalizeMode imgOpaqueRGBA).mode = Mode.RGBA :=
  (C5_mode_by_source_mode imgOpaqueRGBA).1 (by decide)

/-- C6 counterexample: on zero decoded frames the optimizer returns
None (Failure) and writes no artifact, but its console output is
empty — no line names the file or the cause, refuting the claimed
failure report: the empty-frames case falls through the if-frames
guard silently. -/
theorem C6_counterexample :
    optimize_animated_gif bigCodec "g" [] 0 emptyFS = (emptyFS, none, []) := by
  simp [optimize_animated_gif]

/-- C6 (amended): zero decoded frames yield Failure (None) with the
filesystem untouched (no artifact), and an empty console log: the
source emits no failure line in this case. -/
theorem C6_empty_silent (c : Codec) (stem : String) (loop : Nat) (fs : FS) :
    optimize_animated_gif c stem [] loop fs = (fs, none, []) := by
  simp [optimize_animated_gif]

/-- C7: per-file failure isolation. In the startup sweep, every
supported file contributes its processing line to the log no matter
what any optimization outcome is (the loop always reaches every
file), and a file whose optimization raises contributes an error
line naming the file and the cause. At the watch boundary, an event
passing all checks whose optimization raises still updates the
processed set, logs the processing and error lines, and returns
normally. -/
theorem C7_per_file_isolation :
    (∀ (outcome : String → Except String (Option String))
        (files : List SourceFile) (f : SourceFile),
        f ∈ files → supported f = true →
        ConsoleLine.processing f.path ∈ process_existing_files outcome files ∧
        ∀ e, outcome f.path = Except.error e →
          ConsoleLine.errorLine f.path e ∈ process_existing_files outcome files) ∧
    (∀ (outcome : String → Except String (Option String))
        (existsAfterDelay : String → Bool) (h : ImageHandler) (ev : Event)
        (e : String),
        ev.is_directory = false → supported ev.src = true →
        ev.src.path ∉ h.processed_files → existsAfterDelay ev.src.path = true →
        outcome ev.src.path = Except.error e →
        on_created outcome existsAfterDelay h ev =
          (⟨ev.src.path :: h.processed_files⟩,
            [ConsoleLine.processing ev.src.path,
             ConsoleLine.errorLine ev.src.path e], true)) := by
  constructor
  · intro outcome files f hf hsupp
    induction files with
    | nil => simp at hf
    | cons g rest ih =>
      rcases List.mem_cons.mp hf with hg | hf'
      · subst hg
        constructor
        · show ConsoleLine.processing f.path ∈
            (if supported f then (optimize_call outcome f.path).2 else []) ++
              process_existing_files outcome rest
          apply List.mem_append_left
          rw [if_pos hsupp]
          unfold optimize_call
          cases houtcome : outcome f.path <;> simp
        · intro e he
          show ConsoleLine.errorLine f.path e ∈
            (if supported f then (optimize_call outcome f.path).2 else []) ++
              process_existing_files outcome rest
          apply List.mem_append_left
          rw [if_pos hsupp]
          unfold optimize_call
          rw [he]
          simp
      · obtain ⟨hproc, herr⟩ := ih hf'
        constructor
        · show ConsoleLine.processing f.path ∈
            (if supported g then (optimize_call outcome g.path).2 else []) ++
              process_existing_files outcome rest
          exact List.mem_append_right _ hproc
        · intro e he
          show ConsoleLine.errorLine f.path e ∈
            (if supported g then (optimize_call outcome g.path).2 else []) ++
              process_existing_files outcome rest
          exact List.mem_append_right _ (herr e he)
  · intro outcome existsAfterDelay h ev e hdir hsupp hmem hex houtcome
    unfold on_created
    rw [if_neg (by simp [hdir]), if_neg (by simp [hsupp]),
      if_neg (by simpa using hmem), if_neg (by simp [hex])]
    unfold optimize_call
    rw [houtcome]

/-- C7 witness: a one-file sweep whose optimization raises still logs
the error line for that file. -/
theorem C7_witness :
    ConsoleLine.errorLine "a.png" "boom" ∈
      process_existing_files (fun _ => Except.error "boom")
        [⟨"a.png", ".png"⟩] :=
  (C7_per_file_isolation.1 (fun _ => Except.error "boom")
    [⟨"a.png", ".png"⟩] ⟨"a.png", ".png"⟩ (by simp) (by decide)).2
    "boom" rfl

/-- C8: the static pipeline is deterministic and free of randomness:
re-running optimize_image on the same source image over the
filesystem left by the first run takes the same decisions, returns
the same output path, and leaves every file byte-identical (the
whole run, its quantization step and its quality ladder are
functions of the source image and encoders alone, never of prior
output contents or chance). -/
theorem C8_deterministic_rerun (c : Codec) (stem : String) (img : PILImage)
    (fs : FS) :
    optimize_image c stem img ((optimize_image c stem img fs).1) =
      optimize_image c stem img fs := by
  have hPJ : stem ++ "_emoji.png" ≠ stem ++ "_emoji.jpg" :=
    fun hcontra => jpg_ne_png stem hcontra.symm
  by_cases hbig : MAX_SIZE_BYTES <
      (c.encodePNG (thumbnailImg (normalizeMode img))).length
  · by_cases hmode : (thumbnailImg (normalizeMode img)).mode = Mode.RGBA
    · by_cases hqbig : MAX_SIZE_BYTES <
          (c.encodePNG (c.quantize (thumbnailImg (normalizeMode img)))).length
      · rw [opt_eq_quant_jpeg c stem img fs hmode hbig hqbig]
        dsimp only
        rw [opt_eq_quant_jpeg c stem img _ hmode hbig hqbig]
        refine Prod.ext ?_ rfl
        dsimp only
        funext p
        by_cases hp : p = stem ++ "_emoji.jpg"
        · subst hp
          simp only [save_with_size_limit]
          exact (swsl_indep c _ _ 95 _ _ (by norm_num)).1
        · simp only [save_with_size_limit]
          rw [swsl_frame c _ _ 95 _ p hp]
          by_cases hpP : p = stem ++ "_emoji.png"
          · subst hpP
            rw [FS.write_self, swsl_frame c _ _ 95 _ _ hp, FS.write_self]
          · rw [FS.write_other _ _ _ _ hpP, FS.write_other _ _ _ _ hpP]
      · rw [opt_eq_quant_fit c stem img fs hmode hbig (Nat.not_lt.mp hqbig)]
        dsimp only
        rw [opt_eq_quant_fit c stem img _ hmode hbig (Nat.not_lt.mp hqbig)]
        refine Prod.ext ?_ rfl
        dsimp only
        rw [FS.write_write, FS.write_write]
    · rw [opt_eq_rgb_jpeg c stem img fs hmode hbig]
      dsimp only
      rw [opt_eq_rgb_jpeg c stem img _ hmode hbig]
      refine Prod.ext ?_ rfl
      dsimp only
      funext p
      by_cases hp : p = stem ++ "_emoji.jpg"
      · subst hp
        simp only [save_with_size_limit]
        exact (swsl_indep c _ _ 95 _ _ (by norm_num)).1
      · simp only [save_with_size_limit]
        rw [swsl_frame c _ _ 95 _ p hp]
        by_cases hpP : p = stem ++ "_emoji.png"
        · subst hpP
          rw [FS.write_self, swsl_frame c _ _ 95 _ _ hp, FS.write_self]
        · rw [FS.write_other _ _ _ _ hpP]
  · rw [opt_eq_small c stem img fs (Nat.not_lt.mp hbig)]
    dsimp only
    rw [opt_eq_small c stem img _ (Nat.not_lt.mp hbig)]
    refine Prod.ext ?_ rfl
    dsimp only
    rw [FS.write_write]

/-- C9: a created-file event whose path no longer exists after the
settle delay is skipped: the processed set is unchanged, no console
line (in particular no error) is emitted, and the optimizer is not
invoked. -/
theorem C9_vanished_file_skipped
    (outcome : String → Except String (Option String))
    (existsAfterDelay : String → Bool) (h : ImageHandler) (ev : Event)
    (hgone : existsAfterDelay ev.src.path = false) :
    on_created outcome existsAfterDelay h ev = (h, [], false) := by
  unfold on_created
  by_cases h1 : ev.is_directory = true
  · rw [if_pos h1]
  · rw [if_neg h1]
    by_cases h2 : supported ev.src = false
    · rw [if_pos h2]
    · rw [if_neg h2]
      by_cases h3 : ev.src.path ∈ h.processed_files
      · rw [if_pos h3]
      · rw [if_neg h3, if_pos hgone]

/-- C9 witness: the theorem applied to a concrete supported event
whose file has vanished. -/
theorem C9_witness :
    (fun _ : String => false) "a.png" = false ∧
    on_created (fun _ => Except.ok none) (fun _ : String => false)
      ⟨[]⟩ ⟨false, ⟨"a.png", ".png"⟩⟩ = (⟨[]⟩, [], false) :=
  ⟨rfl, C9_vanished_file_skipped _ _ _ _ rfl⟩

/-- C10: when the JPEG fallback triggers (the PNG encode exceeds
256KB and, for RGBA images, the quantized PNG does too), the .png
file written earlier in the same call is left in the output
directory, still oversized, alongside the new .jpg file, and only
the .jpg path is returned — one source yields two output files. -/
theorem C10_leftover_png (c : Codec) (stem : String) (img : PILImage) (fs : FS)
    (hbig : MAX_SIZE_BYTES <
      (c.encodePNG (thumbnailImg (normalizeMode img))).length)
    (hqbig : MAX_SIZE_BYTES <
      (if (thumbnailImg (normalizeMode img)).mode = Mode.RGBA then
        (c.encodePNG (c.quantize (thumbnailImg (normalizeMode img)))).length
      else (c.encodePNG (thumbnailImg (normalizeMode img))).length)) :
    (optimize_image c stem img fs).2 = some (stem ++ "_emoji.jpg") ∧
    MAX_SIZE_BYTES <
      ((optimize_image c stem img fs).1).sizeAt (stem ++ "_emoji.png") ∧
    ∃ b, (optimize_image c stem img fs).1 (stem ++ "_emoji.jpg") = some b := by
  have hPJ : stem ++ "_emoji.png" ≠ stem ++ "_emoji.jpg" :=
    fun hcontra => jpg_ne_png stem hcontra.symm
  by_cases hmode : (thumbnailImg (normalizeMode img)).mode = Mode.RGBA
  · rw [if_pos hmode] at hqbig
    rw [opt_eq_quant_jpeg c stem img fs hmode hbig hqbig]
    dsimp only
    refine ⟨rfl, ?_, ?_⟩
    · have hfsP : (save_with_size_limit c
          (convertRGB (thumbnailImg (normalizeMode img))) (stem ++ "_emoji.jpg")
          ((fs.write (stem ++ "_emoji.png")
              (c.encodePNG (thumbnailImg (normalizeMode img)))).write
            (stem ++ "_emoji.png")
            (c.encodePNG (c.quantize (thumbnailImg (normalizeMode img))))))
          (stem ++ "_emoji.png")
          = some (c.encodePNG (c.quantize (thumbnailImg (normalizeMode img)))) := by
        simp only [save_with_size_limit]
        rw [swsl_frame c _ _ 95 _ _ hPJ, FS.write_self]
      simp only [FS.sizeAt, hfsP, Option.getD_some]
      exact hqbig
    · obtain ⟨qf, _, hpath, _, _⟩ := swsl_last_fs c
        (convertRGB (thumbnailImg (normalizeMode img))) (stem ++ "_emoji.jpg")
        95 _ (by norm_num)
      exact ⟨_, by simp only [save_with_size_limit]; exact hpath⟩
  · rw [if_neg hmode] at hqbig
    rw [opt_eq_rgb_jpeg c stem img fs hmode hbig]
    dsimp only
    refine ⟨rfl, ?_, ?_⟩
    · have hfsP : (save_with_size_limit c
          (convertRGB (thumbnailImg (normalizeMode img))) (stem ++ "_emoji.jpg")
          (fs.write (stem ++ "_emoji.png")
            (c.encodePNG (thumbnailImg (normalizeMode img)))))
          (stem ++ "_emoji.png")
          = some (c.encodePNG (thumbnailImg (normalizeMode img))) := by
        simp only [save_with_size_limit]
        rw [swsl_frame c _ _ 95 _ _ hPJ, FS.write_self]
      simp only [FS.sizeAt, hfsP, Option.getD_some]
      exact hqbig
    · obtain ⟨qf, _, hpath, _, _⟩ := swsl_last_fs c
        (convertRGB (thumbnailImg (normalizeMode img))) (stem ++ "_emoji.jpg")
        95 _ (by norm_num)
      exact ⟨_, by simp only [save_with_size_limit]; exact hpath⟩

/-- C10 witness: the theorem applied at a concrete input on which the
fallback triggers; the leftover .png is oversized. -/
theorem C10_witness :
    MAX_SIZE_BYTES <
      ((optimize_image bigCodec "x" imgOpaqueRGBA emptyFS).1).sizeAt
        ("x" ++ "_emoji.png") :=
  (C10_leftover_png bigCodec "x" imgOpaqueRGBA emptyFS (by simp [bigCodec])
    (by simp only [bigCodec, List.length_replicate, ite_self]; omega)).2.1

end EmojiOptimizer
